import Mathlib

/-!
Verification of the harmony generation and playback engine of
`sound-of-right-now` (src/music/scale.js, src/music/progression.js).

The JavaScript source is shallowly embedded: note names are Lean `String`s,
MIDI numbers are `ℤ`, JS `number`s used as weights/probabilities are `ℚ`,
and every call to `Math.random()` is threaded explicitly as a rational
drawn from `[0, 1)` (a stream `rs : Nat → ℚ` indexed by draw order).
Fallible lookups (`obj[key]` on a JS object) are `Option`-valued.
-/

namespace SoundOfRightNow

/-- `NOTE_NAMES` from scale.js. -/
def NOTE_NAMES : List String :=
  ["C", "C#", "D", "D#", "E", "F"] ++
    ["F#", "G", "G#", "A", "A#", "B"]

/-- JS `Array.prototype.indexOf`: index of first occurrence, `-1` if absent. -/
def jsIndexOf (l : List String) (s : String) : ℤ :=
  match l.findIdx? (· = s) with
  | some i => (i : ℤ)
  | none => -1

/-- JS `NOTE_NAMES[i]`: out-of-range access yields `undefined` (string-coerced
to "undefined" when interpolated into a template literal). -/
def jsNoteNameAt (i : ℤ) : String :=
  if i < 0 then "undefined" else (NOTE_NAMES.get? i.toNat).getD "undefined"

/-- Digits of a decimal literal to its numeric value (JS `parseInt` on a
string of digits). -/
def digitsToNat (cs : List Char) : Nat :=
  cs.foldl (fun n c => n * 10 + (c.toNat - '0'.toNat)) 0

/-- Parse a note string against the regex `^([A-G]#?)(\d+)$` from
`noteToMidi`, returning the pitch-class name and octave on a match. -/
def parseNote (note : String) : Option (String × Nat) :=
  match note.toList with
  | [] => none
  | c :: rest =>
    if 'A' ≤ c ∧ c ≤ 'G' then
      let (name, octChars) :=
        match rest with
        | '#' :: rest2 => (String.mk [c, '#'], rest2)
        | _ => (String.mk [c], rest)
      if octChars ≠ [] ∧ octChars.all (·.isDigit) then
        some (name, digitsToNat octChars)
      else none
    else none

/-- `noteToMidi` from scale.js: `"C4" ↦ 60`; unmatched strings map to 60. -/
def noteToMidi (note : String) : ℤ :=
  match parseNote note with
  | none => 60
  | some (name, octave) => jsIndexOf NOTE_NAMES name + ((octave : ℤ) + 1) * 12

/-- `midiToNote` from scale.js: `Math.floor(midi / 12) - 1` for the octave
(floor division) and `NOTE_NAMES[midi % 12]` for the name.  All call sites
pass a nonnegative `midi`, where JS `%` agrees with `Int.emod`. -/
def midiToNote (midi : ℤ) : String :=
  let octave := Int.fdiv midi 12 - 1
  let name := jsNoteNameAt (Int.emod midi 12)
  name ++ toString octave

/-- `MODES` from scale.js: semitone intervals of each mode. -/
def MODES (mode : String) : Option (List ℤ) :=
  if mode = "locrian" then some [0, 1, 3, 5, 6, 8, 10]
  else if mode = "aeolian" then some [0, 2, 3, 5, 7, 8, 10]
  else if mode = "dorian" then some [0, 2, 3, 5, 7, 9, 10]
  else if mode = "mixolydian" then some [0, 2, 4, 5, 7, 9, 10]
  else if mode = "ionian" then some [0, 2, 4, 5, 7, 9, 11]
  else if mode = "lydian" then some [0, 2, 4, 6, 7, 9, 11]
  else if mode = "harmonicMinor" then some [0, 2, 3, 5, 7, 8, 11]
  else if mode = "melodicMinor" then some [0, 2, 3, 5, 7, 9, 11]
  else none

/-- The list `[lo, lo+1, …, hi]` (a JS `for (let o = lo; o <= hi; o++)`). -/
def octaveRange (lo hi : ℤ) : List ℤ :=
  (List.range (hi + 1 - lo).toNat).map (fun k => lo + (k : ℤ))

/-- `getScaleNotes` from scale.js. -/
def getScaleNotes (root mode : String) (lowOctave highOctave : ℤ) : List String :=
  match MODES mode with
  | none => []
  | some intervals =>
    let rootIndex := jsIndexOf NOTE_NAMES root
    if rootIndex = -1 then []
    else
      (octaveRange lowOctave highOctave).flatMap (fun octave =>
        intervals.map (fun interval =>
          midiToNote ((octave + 1) * 12 + rootIndex + interval)))

/-- `getScaleMidi` from scale.js (no validity check on `root`). -/
def getScaleMidi (root mode : String) (lowOctave highOctave : ℤ) : List ℤ :=
  match MODES mode with
  | none => []
  | some intervals =>
    let rootIndex := jsIndexOf NOTE_NAMES root
    (octaveRange lowOctave highOctave).flatMap (fun octave =>
      intervals.map (fun interval => (octave + 1) * 12 + rootIndex + interval))

/-- `getScaleDegreeNote` from scale.js.  `intervals[degreeIndex % 7]`;
`NOTE_NAMES[(rootIndex + semitones) % 12]` (arguments are nonnegative at
every call site, where JS `%` agrees with `Int.emod`). -/
def getScaleDegreeNote (root mode : String) (degreeIndex : Nat) : String :=
  match MODES mode with
  | none => root
  | some intervals =>
    let rootIndex := jsIndexOf NOTE_NAMES root
    let semitones := intervals.getD (degreeIndex % 7) 0
    jsNoteNameAt (Int.emod (rootIndex + semitones) 12)

/-- `getDiatonicChord` from scale.js: stack thirds over a 3-octave window. -/
def getDiatonicChord (root mode : String) (degreeIndex : Nat) (octave : ℤ) : List String :=
  match MODES mode with
  | none => []
  | some _ =>
    let allMidi := getScaleMidi root mode (octave - 1) (octave + 1)
    let startIndex := 7 + degreeIndex
    [0, 2, 4, 6].map (fun offset =>
      let idx := startIndex + offset
      if allMidi.length ≤ idx then midiToNote (allMidi.getLastD 0)
      else midiToNote (allMidi.getD idx 0))

/-- JS `Math.abs` on an integer. -/
def jsAbs (x : ℤ) : ℤ := if x < 0 then -x else x

/-- The candidate-selection loop of `voiceLead`: try `target` in three
octaves and keep the one nearest `current` (first candidate wins ties,
matching the strict `<` update). -/
def nearestOctave (current target : ℤ) : ℤ :=
  let c1 := target - 12
  let c2 := target
  let c3 := target + 12
  let d1 := jsAbs (c1 - current)
  let best2 := if jsAbs (c2 - current) < d1 then c2 else c1
  let dist2 := if jsAbs (c2 - current) < d1 then jsAbs (c2 - current) else d1
  if jsAbs (c3 - current) < dist2 then c3 else best2

/-- Fuelled form of `while (midi < 48) midi += 12` from `voiceLead`'s clamp
(structural recursion so that the kernel can evaluate it; the fuel
`(48 - midi).toNat` dominates the number of +12 steps the loop performs). -/
def clampLowAux : Nat → ℤ → ℤ
  | 0, midi => midi
  | fuel + 1, midi => if midi < 48 then clampLowAux fuel (midi + 12) else midi

/-- `while (midi < 48) midi += 12` from `voiceLead`'s clamp. -/
def clampLow (midi : ℤ) : ℤ := clampLowAux (48 - midi).toNat midi

/-- Fuelled form of `while (midi > 84) midi -= 12` from `voiceLead`'s clamp. -/
def clampHighAux : Nat → ℤ → ℤ
  | 0, midi => midi
  | fuel + 1, midi => if 84 < midi then clampHighAux fuel (midi - 12) else midi

/-- `while (midi > 84) midi -= 12` from `voiceLead`'s clamp. -/
def clampHigh (midi : ℤ) : ℤ := clampHighAux (midi - 84).toNat midi

/-- The register clamp of `voiceLead` (both `while` loops in order). -/
def clampToRegister (midi : ℤ) : ℤ := clampHigh (clampLow midi)

/-- `currentMidi[i] ?? currentMidi[0]` from `voiceLead`. -/
def jsCurrentAt (currentMidi : List ℤ) (i : Nat) : ℤ :=
  match currentMidi.get? i with
  | some x => x
  | none => currentMidi.headD 0

/-- `voiceLead` from scale.js. -/
def voiceLead (currentVoicing targetRootPosition : List String) : List String :=
  if currentVoicing.isEmpty then targetRootPosition
  else if targetRootPosition.isEmpty then targetRootPosition
  else
    let currentMidi := currentVoicing.map noteToMidi
    let targetMidi := targetRootPosition.map noteToMidi
    let voiced := targetMidi.enum.map (fun p => nearestOctave (jsCurrentAt currentMidi p.1) p.2)
    let clamped := voiced.map clampToRegister
    clamped.map midiToNote

/-- `buildDominant7Chord` from scale.js. -/
def buildDominant7Chord (rootName : String) (octave : ℤ) : List String :=
  let rootIdx := jsIndexOf NOTE_NAMES rootName
  if rootIdx = -1 then []
  else
    let baseM := (octave + 1) * 12 + rootIdx
    [midiToNote baseM, midiToNote (baseM + 4), midiToNote (baseM + 7), midiToNote (baseM + 10)]

/-- JS `new Set(list)` read back in insertion order (first occurrences). -/
def jsSetOfList (l : List ℤ) : List ℤ :=
  l.foldl (fun acc x => if x ∈ acc then acc else acc ++ [x]) []

/-- Stable insert of `x` after every already-placed note of equal or lower
MIDI value. -/
def insertByMidi (x : String) : List String → List String
  | [] => [x]
  | y :: ys => if noteToMidi y ≤ noteToMidi x then y :: insertByMidi x ys else x :: y :: ys

/-- JS stable `sort((a, b) => noteToMidi(a) - noteToMidi(b))`, modelled as a
stable insertion sort (a stable sort under a total comparator determines the
output uniquely, so this agrees with `Array.prototype.sort`). -/
def sortByMidi (notes : List String) : List String :=
  notes.foldl (fun acc x => insertByMidi x acc) []

/-- `getChordTonesForDegree` from scale.js. -/
def getChordTonesForDegree (root mode : String) (degreeIndex : Nat)
    (lowOctave highOctave : ℤ) : List String :=
  match MODES mode with
  | none => []
  | some intervals =>
    let rootIndex := jsIndexOf NOTE_NAMES root
    let chordDegrees := [0, 2, 4, 6].map (fun offset => (degreeIndex + offset) % 7)
    let chordSemitones := jsSetOfList (chordDegrees.map (fun d => intervals.getD d 0))
    let notes := (octaveRange lowOctave highOctave).flatMap (fun octave =>
      chordSemitones.map (fun semi => midiToNote ((octave + 1) * 12 + rootIndex + semi)))
    sortByMidi notes

/-- `getChordTonesFromSemitones` from scale.js. -/
def getChordTonesFromSemitones (rootName : String) (semitoneOffsets : List ℤ)
    (lowOctave highOctave : ℤ) : List String :=
  let rootIdx := jsIndexOf NOTE_NAMES rootName
  if rootIdx = -1 then []
  else
    let notes := (octaveRange lowOctave highOctave).flatMap (fun octave =>
      semitoneOffsets.map (fun offset => midiToNote ((octave + 1) * 12 + rootIdx + offset)))
    sortByMidi notes

/-! ## progression.js — data model and mood tables -/

/-- The `Chord` objects built by progression.js.  Diatonic chords from
`buildChord` omit `isSecondaryDominant`/`resolvesDegree` in JS (reads yield
`undefined`, which is falsy); they are modelled as `false`/`none`. -/
structure Chord where
  degree : Option Nat
  degreeIndex : Option Nat
  quality : String
  notes : List String
  bassNote : String
  chordTones : List String
  scaleTones : List String
  chordRootName : String
  isSecondaryDominant : Bool
  resolvesDegree : Option Nat
deriving DecidableEq, Repr

/-- The `Progression` objects returned by `generateProgression`. -/
structure Progression where
  chords : List Chord
  harmonicRhythm : String
  length : Nat
deriving DecidableEq, Repr

/-- A row of seven degree weights (`{1: w1, …, 7: w7}`); the tables are only
ever indexed at keys 1–7. -/
def mkWeights (v1 v2 v3 v4 v5 v6 v7 : ℚ) : Nat → ℚ :=
  fun d => match d with
  | 1 => v1 | 2 => v2 | 3 => v3 | 4 => v4 | 5 => v5 | 6 => v6 | 7 => v7
  | _ => 0

/-- `DIATONIC_CHORDS` from progression.js. -/
def DIATONIC_CHORDS (mode : String) : Option (List String) :=
  if mode = "ionian" then some ["maj7", "min7", "min7", "maj7", "dom7", "min7", "min7b5"]
  else if mode = "dorian" then some ["min7", "min7", "maj7", "dom7", "min7", "min7b5", "maj7"]
  else if mode = "mixolydian" then some ["dom7", "min7", "min7b5", "maj7", "min7", "min7", "maj7"]
  else if mode = "aeolian" then some ["min7", "min7b5", "maj7", "min7", "min7", "maj7", "dom7"]
  else if mode = "lydian" then some ["maj7", "dom7", "min7", "min7", "min7b5", "maj7", "min7"]
  else if mode = "locrian" then some ["min7b5", "maj7", "min7", "min7", "maj7", "dom7", "min7"]
  else none

/-- The `calm` rows of `TRANSITION_WEIGHTS`. -/
def calmTransitions (d : Nat) : Option (Nat → ℚ) :=
  match d with
  | 1 => some (mkWeights 0 1 2 8 6 4 1)
  | 2 => some (mkWeights 3 0 1 2 5 1 1)
  | 3 => some (mkWeights 4 1 0 5 1 3 1)
  | 4 => some (mkWeights 8 2 1 0 4 3 1)
  | 5 => some (mkWeights 8 1 1 4 0 3 1)
  | 6 => some (mkWeights 4 2 1 6 3 0 1)
  | 7 => some (mkWeights 5 1 2 3 1 2 0)
  | _ => none

/-- The `gentle` rows of `TRANSITION_WEIGHTS`. -/
def gentleTransitions (d : Nat) : Option (Nat → ℚ) :=
  match d with
  | 1 => some (mkWeights 0 3 3 4 2 5 3)
  | 2 => some (mkWeights 3 0 1 3 6 1 1)
  | 3 => some (mkWeights 2 1 0 3 1 5 2)
  | 4 => some (mkWeights 5 2 1 0 4 2 1)
  | 5 => some (mkWeights 5 1 1 2 0 4 2)
  | 6 => some (mkWeights 3 2 1 5 3 0 2)
  | 7 => some (mkWeights 3 1 2 3 1 4 0)
  | _ => none

/-- The `melancholy` rows of `TRANSITION_WEIGHTS`. -/
def melancholyTransitions (d : Nat) : Option (Nat → ℚ) :=
  match d with
  | 1 => some (mkWeights 0 1 3 4 1 5 5)
  | 2 => some (mkWeights 2 0 2 1 3 2 3)
  | 3 => some (mkWeights 2 1 0 4 1 4 3)
  | 4 => some (mkWeights 2 1 4 0 1 4 5)
  | 5 => some (mkWeights 3 1 2 2 0 3 4)
  | 6 => some (mkWeights 2 1 3 2 1 0 6)
  | 7 => some (mkWeights 4 1 4 2 1 4 0)
  | _ => none

/-- The `tense` rows of `TRANSITION_WEIGHTS`. -/
def tenseTransitions (d : Nat) : Option (Nat → ℚ) :=
  match d with
  | 1 => some (mkWeights 0 4 3 4 4 3 4)
  | 2 => some (mkWeights 3 0 3 2 5 3 3)
  | 3 => some (mkWeights 2 3 0 3 2 5 3)
  | 4 => some (mkWeights 4 3 2 0 4 2 4)
  | 5 => some (mkWeights 4 2 3 3 0 4 3)
  | 6 => some (mkWeights 2 4 3 4 3 0 3)
  | 7 => some (mkWeights 4 2 4 3 3 3 0)
  | _ => none

/-- The `suspended` rows of `TRANSITION_WEIGHTS`. -/
def suspendedTransitions (d : Nat) : Option (Nat → ℚ) :=
  match d with
  | 1 => some (mkWeights 0 2 0 7 6 1 0)
  | 2 => some (mkWeights 8 0 0 2 3 0 0)
  | 3 => some (mkWeights 6 1 0 3 2 1 0)
  | 4 => some (mkWeights 8 1 0 0 4 1 0)
  | 5 => some (mkWeights 9 1 0 3 0 1 0)
  | 6 => some (mkWeights 6 1 0 4 3 0 0)
  | 7 => some (mkWeights 7 0 1 3 2 0 0)
  | _ => none

/-- The `sparse` rows of `TRANSITION_WEIGHTS`. -/
def sparseTransitions (d : Nat) : Option (Nat → ℚ) :=
  match d with
  | 1 => some (mkWeights 0 1 3 5 5 4 1)
  | 2 => some (mkWeights 5 0 1 2 4 1 1)
  | 3 => some (mkWeights 6 1 0 3 2 2 1)
  | 4 => some (mkWeights 7 1 1 0 3 2 1)
  | 5 => some (mkWeights 7 1 1 3 0 2 1)
  | 6 => some (mkWeights 5 1 2 4 2 0 1)
  | 7 => some (mkWeights 5 1 2 3 2 2 0)
  | _ => none

/-- `TRANSITION_WEIGHTS` from progression.js, keyed by mood. -/
def TRANSITION_WEIGHTS (mood : String) : Option (Nat → Option (Nat → ℚ)) :=
  if mood = "calm" then some calmTransitions
  else if mood = "gentle" then some gentleTransitions
  else if mood = "melancholy" then some melancholyTransitions
  else if mood = "tense" then some tenseTransitions
  else if mood = "suspended" then some suspendedTransitions
  else if mood = "sparse" then some sparseTransitions
  else none

/-- `STARTING_WEIGHTS` from progression.js. -/
def STARTING_WEIGHTS (mood : String) : Option (Nat → ℚ) :=
  if mood = "calm" then some (mkWeights 10 0 1 2 1 1 0)
  else if mood = "gentle" then some (mkWeights 7 1 1 3 1 3 1)
  else if mood = "melancholy" then some (mkWeights 5 0 1 2 0 4 2)
  else if mood = "tense" then some (mkWeights 4 3 1 2 2 1 1)
  else if mood = "suspended" then some (mkWeights 10 0 0 1 1 0 0)
  else if mood = "sparse" then some (mkWeights 8 0 1 3 1 1 0)
  else none

/-- `PROGRESSION_LENGTHS` from progression.js: `(min, max)` per mood. -/
def PROGRESSION_LENGTHS (mood : String) : Option (Nat × Nat) :=
  if mood = "calm" then some (4, 6)
  else if mood = "gentle" then some (4, 6)
  else if mood = "melancholy" then some (4, 6)
  else if mood = "tense" then some (6, 10)
  else if mood = "suspended" then some (3, 5)
  else if mood = "sparse" then some (3, 5)
  else none

/-- `SEC_DOM_PROBABILITY` from progression.js. -/
def SEC_DOM_PROBABILITY (mood : String) : Option ℚ :=
  if mood = "tense" then some (30 / 100)
  else if mood = "melancholy" then some (20 / 100)
  else if mood = "gentle" then some (12 / 100)
  else if mood = "calm" then some (8 / 100)
  else if mood = "suspended" then some 0
  else if mood = "sparse" then some 0
  else none

/-- `SEC_DOM_TARGETS.has(degree)`: the target set is `{2, 4, 5, 6}`;
`has` on a chromatic chord's `null` degree is `false`. -/
def secDomTargetsHas (degree : Option Nat) : Bool :=
  match degree with
  | some d => d = 2 ∨ d = 4 ∨ d = 5 ∨ d = 6
  | none => false

/-- `CATEGORY_TO_MOOD` from constants.js. -/
def CATEGORY_TO_MOOD (category : String) : Option String :=
  if category = "clear" then some "calm"
  else if category = "cloudy" then some "gentle"
  else if category = "fog" then some "suspended"
  else if category = "drizzle" then some "melancholy"
  else if category = "rain" then some "gentle"
  else if category = "snow" then some "sparse"
  else if category = "storm" then some "tense"
  else none

/-! ## weightedPick -/

/-- The seven degree keys of every weights object, in the ascending order
JS `Object.entries` enumerates integer-like keys. -/
def degreeKeys : List Nat := [1, 2, 3, 4, 5, 6, 7]

/-- The `entries` array accumulated by `weightedPick`: non-excluded keys of
positive weight, in key order. -/
def weightedEntries (weights : Nat → ℚ) (exclude : Option Nat) : List (Nat × ℚ) :=
  degreeKeys.filterMap (fun d =>
    if some d = exclude ∨ weights d ≤ 0 then none else some (d, weights d))

/-- The roll loop of `weightedPick`: subtract weights until the roll drops
to zero or below; fall through to the last entry's degree. -/
def pickFromEntries (entries : List (Nat × ℚ)) (roll : ℚ) (last : Nat) : Nat :=
  match entries with
  | [] => last
  | (d, w) :: rest => if roll - w ≤ 0 then d else pickFromEntries rest (roll - w) last

/-- `weightedPick(weights, exclude)` from progression.js, with the single
`Math.random()` draw passed in as `r ∈ [0, 1)`.  (For `r` outside that range
the fallback indexing models JS `undefined` via a default; no call site
produces such an `r`.) -/
def weightedPick (weights : Nat → ℚ) (exclude : Option Nat) (r : ℚ) : Nat :=
  let entries := weightedEntries weights exclude
  if entries.isEmpty then
    let fallback := degreeKeys.filter (fun d => some d ≠ exclude)
    fallback.getD (⌊r * fallback.length⌋).toNat 0
  else
    let total := (entries.map (fun e => e.2)).sum
    pickFromEntries entries (r * total) (entries.getLastD (0, 0)).1

/-- `getHarmonicRhythm` from progression.js. -/
def jsRoundQ (q : ℚ) : ℤ := ⌊q + 1 / 2⌋

/-- `getHarmonicRhythm(pressureNorm, weatherCategory)` from progression.js. -/
def getHarmonicRhythm (pressureNorm : ℚ) (weatherCategory : String) : String :=
  if weatherCategory = "storm" then "2m"
  else if weatherCategory = "fog" then "8m"
  else toString (jsRoundQ (2 + pressureNorm * 6)) ++ "m"

/-! ## Chord construction -/

/-- `shiftOctave(noteName, targetOctave)` from progression.js:
`replace(/\d+$/, String(targetOctave))` (unchanged when the string does not
end in digits). -/
def shiftOctave (noteName : String) (targetOctave : ℤ) : String :=
  let revCs := noteName.toList.reverse
  let digits := revCs.takeWhile (·.isDigit)
  if digits.isEmpty then noteName
  else String.mk (revCs.dropWhile (·.isDigit)).reverse ++ toString targetOctave

/-- `selectInversion(chord, previousBassNote)` from progression.js. -/
def selectInversion (chord : Chord) (previousBassNote : Option String) : Chord :=
  match previousBassNote with
  | none => chord
  | some pb =>
    if chord.notes.length < 3 then chord
    else
      let candidates := [chord.bassNote,
        shiftOctave (chord.notes.getD 1 "undefined") 2,
        shiftOctave (chord.notes.getD 2 "undefined") 2]
      let prevMidi := noteToMidi pb
      let first := candidates.headD "undefined"
      let best := (candidates.drop 1).foldl
        (fun bd c =>
          let dist := jsAbs (noteToMidi c - prevMidi)
          if dist < bd.2 then (c, dist) else bd)
        (first, jsAbs (noteToMidi first - prevMidi))
      if best.1 = chord.bassNote then chord else { chord with bassNote := best.1 }

/-- `buildChord(root, mode, degree, qualities)` from progression.js. -/
def buildChord (root mode : String) (degree : Nat) (qualities : List String) : Chord :=
  let degreeIndex := degree - 1
  { degree := some degree
    degreeIndex := some degreeIndex
    quality := qualities.getD degreeIndex "undefined"
    notes := getDiatonicChord root mode degreeIndex 4
    bassNote := getScaleDegreeNote root mode degreeIndex ++ "2"
    chordTones := getChordTonesForDegree root mode degreeIndex 3 5
    scaleTones := getScaleNotes root mode 3 5
    chordRootName := getScaleDegreeNote root mode degreeIndex
    isSecondaryDominant := false
    resolvesDegree := none }

/-- `buildSecondaryDominant(targetChord, originalScaleTones)` from
progression.js: a dominant seventh rooted a perfect fifth above the target,
keeping the surrounding diatonic `scaleTones`. -/
def buildSecondaryDominant (targetChord : Chord) (originalScaleTones : List String) : Chord :=
  let targetRootIdx := jsIndexOf NOTE_NAMES targetChord.chordRootName
  let secDomRootIdx := Int.emod (targetRootIdx + 7) 12
  let secDomRootName := jsNoteNameAt secDomRootIdx
  { degree := none
    degreeIndex := none
    quality := "dom7"
    notes := buildDominant7Chord secDomRootName 4
    bassNote := secDomRootName ++ "2"
    chordTones := getChordTonesFromSemitones secDomRootName [0, 4, 7, 10] 3 5
    scaleTones := originalScaleTones
    chordRootName := secDomRootName
    isSecondaryDominant := true
    resolvesDegree := targetChord.degree }

/-! ## generateProgression -/

/-- The Markov-walk loop of `generateProgression`: `n` further degrees after
`cur`, reading the mood's transition row (`transitions[cur] || transitions[1]`)
and excluding the current degree.  `k` indexes the random stream. -/
def markovWalkAux (trans : Nat → Option (Nat → ℚ)) (rs : Nat → ℚ) :
    Nat → Nat → Nat → List Nat
  | _, _, 0 => []
  | cur, k, Nat.succ n =>
    let row := (trans cur).getD ((trans 1).getD (fun _ => 0))
    let next := weightedPick row (some cur) (rs k)
    next :: markovWalkAux trans rs next (k + 1) n

/-- The base degree sequence of `generateProgression` (starting draw at
stream index 1, walk draws from index 2). -/
def markovDegrees (startWeights : Nat → ℚ) (trans : Nat → Option (Nat → ℚ))
    (length : Nat) (rs : Nat → ℚ) : List Nat :=
  let d0 := weightedPick startWeights none (rs 1)
  d0 :: markovWalkAux trans rs d0 2 (length - 1)

/-- The secondary-dominant injection pass of `generateProgression`: before
each chord whose degree is in `SEC_DOM_TARGETS`, with probability `prob`
(one `Math.random()` draw per eligible chord, stream index `k` onward),
insert `buildSecondaryDominant`. -/
def injectSecondaryDominants (prob : ℚ) (originalScaleTones : List String)
    (rs : Nat → ℚ) : List Chord → Nat → List Chord
  | [], _ => []
  | c :: rest, k =>
    if secDomTargetsHas c.degree then
      if rs k < prob then
        buildSecondaryDominant c originalScaleTones ::
          c :: injectSecondaryDominants prob originalScaleTones rs rest (k + 1)
      else c :: injectSecondaryDominants prob originalScaleTones rs rest (k + 1)
    else c :: injectSecondaryDominants prob originalScaleTones rs rest k

/-- The inversion pass of `generateProgression`, threading the previous
bass note left to right (`previousBassNote` starts as `null`). -/
def inversionGo (prev : Option String) : List Chord → List Chord
  | [] => []
  | c :: rest =>
    let voiced := selectInversion c prev
    voiced :: inversionGo (some voiced.bassNote) rest

/-- The final `map` of `generateProgression` choosing bass inversions. -/
def inversionPass (cs : List Chord) : List Chord := inversionGo none cs

/-- `generateProgression(root, mode, weatherCategory, pressureNorm)` from
progression.js.  `rs` is the `Math.random()` stream in draw order:
index 0 the length draw, 1 the starting degree, `2 … length` the walk,
then one draw per injection-eligible chord.  (The length is at least 3 for
every mood, so the walk's draw indices never collide with the injection's.) -/
def generateProgression (root mode weatherCategory : String) (pressureNorm : ℚ)
    (rs : Nat → ℚ) : Progression :=
  let mood := (CATEGORY_TO_MOOD weatherCategory).getD "calm"
  let harmonicRhythm := getHarmonicRhythm pressureNorm weatherCategory
  let qualities := (DIATONIC_CHORDS mode).getD
    ["maj7", "min7", "min7", "maj7", "dom7", "min7", "min7b5"]
  let lengths := (PROGRESSION_LENGTHS mood).getD (4, 6)
  let length := lengths.1 + (⌊rs 0 * ((lengths.2 : ℚ) - lengths.1 + 1)⌋).toNat
  let transitions := (TRANSITION_WEIGHTS mood).getD calmTransitions
  let startWeights := (STARTING_WEIGHTS mood).getD (mkWeights 10 0 1 2 1 1 0)
  let degrees := markovDegrees startWeights transitions length rs
  let chords := degrees.map (fun degree => buildChord root mode degree qualities)
  let secDomProb := (SEC_DOM_PROBABILITY mood).getD 0
  let finalChords :=
    if 0 < secDomProb then
      let originalScaleTones :=
        ((chords.head?).map (fun c => c.scaleTones)).getD (getScaleNotes root mode 3 5)
      injectSecondaryDominants secDomProb originalScaleTones rs chords (length + 1)
    else chords
  let voicedChords := inversionPass finalChords
  { chords := voicedChords
    harmonicRhythm := harmonicRhythm
    length := voicedChords.length }

/-- `shouldImmediatelyChange(oldCategory, newCategory)` from progression.js. -/
def shouldImmediatelyChange (oldCategory newCategory : String) : Bool :=
  if oldCategory = newCategory then false
  else if newCategory = "storm" ∨ oldCategory = "storm" then true
  else if newCategory = "fog" ∨ oldCategory = "fog" then true
  else if newCategory = "snow" ∨ oldCategory = "snow" then true
  else false

/-! ## createProgressionPlayer

The player's closure state (`currentProgression`, `nextProgression`,
`chordIndex`, and the `Tone.Loop` handle) is modelled as an explicit record;
the loop handle is represented by its interval (`none` = no loop).  Each
API call and each firing of the loop callback ("advance") is a function
from state to state plus the list of `onChordChange` events it emits
synchronously.  Musical-time scheduling itself is outside the model. -/

/-- One `onChordChange(chord, index, total)` emission.  The chord component
is `Option`-valued because JS passes `chords[index]`, which is `undefined`
past the end of the array. -/
abbrev ChordEvent := Option Chord × Nat × Nat

/-- Player closure state. -/
structure PlayerState where
  currentProgression : Option Progression
  nextProgression : Option Progression
  chordIndex : Nat
  loopInterval : Option String
deriving DecidableEq, Repr

/-- `stopLoop()`: stop and dispose the loop handle. -/
def stopLoop (s : PlayerState) : PlayerState :=
  { s with loopInterval := none }

/-- `startLoop({ fireCurrentChord })`: dispose any existing loop, bail out
with no loop when nothing is loaded, optionally emit the current chord, and
register a fresh loop at the current progression's harmonic rhythm. -/
def startLoop (fireCurrentChord : Bool) (s : PlayerState) : PlayerState × List ChordEvent :=
  let s1 := stopLoop s
  match s1.currentProgression with
  | none => (s1, [])
  | some cur =>
    let events :=
      if fireCurrentChord then
        [(cur.chords.get? s1.chordIndex, s1.chordIndex, cur.chords.length)]
      else []
    ({ s1 with loopInterval := some cur.harmonicRhythm }, events)

/-- `setProgression(progression, immediate)` from the player. -/
def setProgression (p : Progression) (immediate : Bool) (s : PlayerState) :
    PlayerState × List ChordEvent :=
  if immediate || s.currentProgression.isNone then
    startLoop true
      { s with currentProgression := some p, nextProgression := none, chordIndex := 0 }
  else ({ s with nextProgression := some p }, [])

/-- The `currentChord` getter (`null` with nothing loaded, `chords[index]`
otherwise, merged into one `Option`). -/
def currentChord (s : PlayerState) : Option Chord :=
  match s.currentProgression with
  | none => none
  | some cur => cur.chords.get? s.chordIndex

/-- The `position` getter. -/
def position (s : PlayerState) : Nat × Nat :=
  match s.currentProgression with
  | none => (0, 0)
  | some cur => (s.chordIndex, cur.chords.length)

/-- `pause()`: stop the loop, keeping progression and cursor. -/
def playerPause (s : PlayerState) : PlayerState × List ChordEvent :=
  (stopLoop s, [])

/-- `start()`: restart the loop from the current position without
re-emitting; no-op when nothing is loaded. -/
def playerStart (s : PlayerState) : PlayerState × List ChordEvent :=
  match s.currentProgression with
  | none => (s, [])
  | some _ => startLoop false s

/-- `resume()` is an alias for `start()`. -/
def playerResume (s : PlayerState) : PlayerState × List ChordEvent :=
  playerStart s

/-- `stop()`: stop the loop and discard all progression state. -/
def playerStop (_s : PlayerState) : PlayerState × List ChordEvent :=
  ({ currentProgression := none, nextProgression := none,
     chordIndex := 0, loopInterval := none }, [])

/-- `chord.isSecondaryDominant` where `chord` is `chords[index]`.
(In JS the read would throw on an `undefined` chord; that is unreachable
for the nonempty progressions the generator produces, and is modelled as
`false`.) -/
def jsIsSecDom (oc : Option Chord) : Bool :=
  match oc with
  | some c => c.isSecondaryDominant
  | none => false

/-- `Math.max(1, Math.round(parseInt(n) / 2))` applied to the measure count
in the interval-halving regex replacement. -/
def halveMeasures (n : Nat) : ℤ := max 1 (jsRoundQ ((n : ℚ) / 2))

/-- Fuelled body of the regex replacement `replace(/(\d+)m/, …)`: scan for
the first run of digits immediately followed by `m` and replace it.  The
fuel (initially the string length) dominates the number of scan steps, so
the recursion is structural and kernel-evaluable. -/
def replaceDigitsMAux (f : Nat → ℤ) : Nat → List Char → List Char
  | _, [] => []
  | 0, cs => cs
  | fuel + 1, c :: rest =>
    if c.isDigit then
      let run := (c :: rest).takeWhile (·.isDigit)
      let tail := (c :: rest).dropWhile (·.isDigit)
      match tail with
      | 'm' :: after => (toString (f (digitsToNat run))).toList ++ 'm' :: after
      | _ => run ++ replaceDigitsMAux f fuel tail
    else c :: replaceDigitsMAux f fuel rest

/-- `str.replace(/(\d+)m/, (_, n) => f(n) + "m")`: replace the first run of
digits that is immediately followed by `m` (the string is unchanged when no
such run exists). -/
def replaceDigitsM (f : Nat → ℤ) (cs : List Char) : List Char :=
  replaceDigitsMAux f cs.length cs

/-- The interval-halving string transformation from the advance callback:
`baseRhythm.replace(/(\d+)m/, (_, n) => Math.max(1, Math.round(n / 2)) + 'm')`. -/
def halveRhythm (s : String) : String :=
  String.mk (replaceDigitsM halveMeasures s.toList)

/-- One firing of the `Tone.Loop` advance callback.  `cycleEndResult`
describes the external cycle-end supplier at this instant: `none` when
`callbacks.onCycleEnd` is absent, `some none` when it is called and returns
a falsy value, `some (some fresh)` when it returns `fresh`. -/
def advance (s : PlayerState) (cycleEndResult : Option (Option Progression)) :
    PlayerState × List ChordEvent :=
  match s.currentProgression with
  | none => (s, [])
  | some cur =>
    let idx := s.chordIndex + 1
    let (cur2, next2, idx2) :=
      if cur.chords.length ≤ idx then
        match s.nextProgression with
        | some np => (np, none, 0)
        | none =>
          match cycleEndResult with
          | some (some fresh) => (fresh, none, 0)
          | some none => (cur, none, 0)
          | none => (cur, none, 0)
      else (cur, s.nextProgression, idx)
    let chord := cur2.chords.get? idx2
    let baseRhythm := cur2.harmonicRhythm
    let interval := if jsIsSecDom chord then halveRhythm baseRhythm else baseRhythm
    ({ currentProgression := some cur2, nextProgression := next2,
       chordIndex := idx2, loopInterval := some interval },
     [(chord, idx2, cur2.chords.length)])

/-! ## Concrete fixtures used by witnesses -/

/-- A diatonic I chord fixture (shape of `buildChord "C" "ionian" 1 …`). -/
def chordC : Chord :=
  { degree := some 1, degreeIndex := some 0, quality := "maj7"
    notes := ["C4", "E4", "G4", "B4"], bassNote := "C2"
    chordTones := [], scaleTones := ["C3", "D3", "E3"], chordRootName := "C"
    isSecondaryDominant := false, resolvesDegree := none }

/-- A diatonic IV chord fixture. -/
def chordF : Chord :=
  { degree := some 4, degreeIndex := some 3, quality := "maj7"
    notes := ["F4", "A4", "C5", "E5"], bassNote := "F2"
    chordTones := [], scaleTones := ["C3", "D3", "E3"], chordRootName := "F"
    isSecondaryDominant := false, resolvesDegree := none }

/-- A secondary-dominant chord fixture (shape of `buildSecondaryDominant`
targeting the IV chord). -/
def chordV7ofF : Chord :=
  { degree := none, degreeIndex := none, quality := "dom7"
    notes := ["C4", "E4", "G4", "A#4"], bassNote := "C2"
    chordTones := [], scaleTones := ["C3", "D3", "E3"], chordRootName := "C"
    isSecondaryDominant := true, resolvesDegree := some 4 }

/-- A two-chord progression fixture. -/
def progAB : Progression :=
  { chords := [chordC, chordF], harmonicRhythm := "4m", length := 2 }

/-- A progression fixture whose chord 0 is a secondary dominant. -/
def progSD : Progression :=
  { chords := [chordV7ofF, chordF], harmonicRhythm := "4m", length := 2 }

/-- A freshly created player (all closure variables at their initial
values). -/
def idleState : PlayerState :=
  { currentProgression := none, nextProgression := none,
    chordIndex := 0, loopInterval := none }

/-- A player with `progAB` loaded at chord 0 and the loop running. -/
def loadedState : PlayerState :=
  { currentProgression := some progAB, nextProgression := none,
    chordIndex := 0, loopInterval := some "4m" }

/-- A degenerate `Math.random()` stream that always returns 0. -/
def zeroStream : Nat → ℚ := fun _ => 0

/-- A concrete generated progression: storm weather maps to the tense mood,
whose injection probability is positive, and the all-zero stream makes every
injection fire — its chord 1 is a secondary dominant resolving to chord 2. -/
def stormSample : Progression :=
  generateProgression "C" "ionian" "storm" 0 zeroStream

/-! ## Lemmas about weightedPick -/

theorem mem_weightedEntries {weights : Nat → ℚ} {ex : Option Nat} {p : Nat × ℚ}
    (h : p ∈ weightedEntries weights ex) :
    p.1 ∈ degreeKeys ∧ some p.1 ≠ ex ∧ 0 < weights p.1 := by
  simp only [weightedEntries, List.mem_filterMap] at h
  obtain ⟨d, hd, hf⟩ := h
  by_cases hc : some d = ex ∨ weights d ≤ 0
  · simp [hc] at hf
  · rw [if_neg hc, Option.some.injEq] at hf
    subst hf
    push_neg at hc
    exact ⟨hd, hc.1, hc.2⟩

theorem weightedEntries_eq_nil_iff {weights : Nat → ℚ} {e : Nat} :
    weightedEntries weights (some e) = [] ↔
      ∀ d, d ∈ degreeKeys → d ≠ e → weights d ≤ 0 := by
  simp only [weightedEntries, List.filterMap_eq_nil_iff]
  constructor
  · intro h d hd hne
    have hth := h d hd
    by_cases hc : some d = some e ∨ weights d ≤ 0
    · rcases hc with hc | hc
      · exact absurd (Option.some.inj hc) hne
      · exact hc
    · rw [if_neg hc] at hth
      exact absurd hth (by simp)
  · intro h d hd
    by_cases hde : d = e
    · subst hde
      simp
    · have hw := h d hd hde
      simp [hw]

theorem pickFromEntries_mem (entries : List (Nat × ℚ)) (roll : ℚ) (last : Nat) :
    pickFromEntries entries roll last ∈ last :: entries.map Prod.fst := by
  induction entries generalizing roll with
  | nil => simp [pickFromEntries]
  | cons p rest ih =>
    obtain ⟨d, w⟩ := p
    simp only [pickFromEntries]
    split
    · simp
    · have := ih (roll - w)
      simp only [List.mem_cons, List.map_cons] at this ⊢
      tauto

theorem getLastD_fst_mem {entries : List (Nat × ℚ)} (h : entries ≠ []) :
    (entries.getLastD (0, 0)).1 ∈ entries.map Prod.fst := by
  induction entries with
  | nil => exact absurd rfl h
  | cons p rest ih =>
    cases rest with
    | nil => simp [List.getLastD]
    | cons q t =>
      have := ih (by simp)
      simp only [List.getLastD_cons, List.map_cons, List.mem_cons] at this ⊢
      tauto

theorem weightedPick_eq_pick {weights : Nat → ℚ} {ex : Option Nat} (r : ℚ)
    (h : weightedEntries weights ex ≠ []) :
    weightedPick weights ex r =
      pickFromEntries (weightedEntries weights ex)
        (r * ((weightedEntries weights ex).map (fun e => e.2)).sum)
        ((weightedEntries weights ex).getLastD (0, 0)).1 := by
  simp only [weightedPick]
  rw [if_neg (by simpa using h)]

theorem weightedPick_eq_fallback {weights : Nat → ℚ} {ex : Option Nat} (r : ℚ)
    (h : weightedEntries weights ex = []) :
    weightedPick weights ex r =
      (degreeKeys.filter (fun d => some d ≠ ex)).getD
        (⌊r * (degreeKeys.filter (fun d => some d ≠ ex)).length⌋).toNat 0 := by
  simp only [weightedPick]
  rw [if_pos (by simpa using h)]

theorem weightedPick_mem_of_entries_ne_nil {weights : Nat → ℚ} {ex : Option Nat} {r : ℚ}
    (h : weightedEntries weights ex ≠ []) :
    weightedPick weights ex r ∈ (weightedEntries weights ex).map Prod.fst := by
  rw [weightedPick_eq_pick r h]
  have hm := pickFromEntries_mem (weightedEntries weights ex)
    (r * ((weightedEntries weights ex).map (fun e => e.2)).sum)
    ((weightedEntries weights ex).getLastD (0, 0)).1
  rcases List.mem_cons.mp hm with heq | hmem
  · rw [heq]
    exact getLastD_fst_mem h
  · exact hmem

theorem fallback_getD_mem {e : Nat} {r : ℚ} (h0 : 0 ≤ r) (h1 : r < 1) :
    let fallback := degreeKeys.filter (fun d => some d ≠ some e)
    fallback.getD (⌊r * fallback.length⌋).toNat 0 ∈ fallback := by
  intro fallback
  have hne : fallback ≠ [] := by
    have : (1 ∈ fallback) ∨ (2 ∈ fallback) := by
      by_cases he : e = 1
      · right
        simp [fallback, degreeKeys, List.mem_filter, he]
      · left
        simp [fallback, degreeKeys, List.mem_filter]
        omega
    rcases this with h | h <;> exact List.ne_nil_of_mem h
  have hlen : 0 < fallback.length := List.length_pos.mpr hne
  have hlenQ : (0 : ℚ) < (fallback.length : ℚ) := by exact_mod_cast hlen
  have hfl : ⌊r * fallback.length⌋ < (fallback.length : ℤ) := by
    apply Int.floor_lt.mpr
    push_cast
    calc r * fallback.length < 1 * fallback.length := by
          exact mul_lt_mul_of_pos_right h1 hlenQ
      _ = fallback.length := one_mul _
  have hge : (0 : ℤ) ≤ ⌊r * fallback.length⌋ :=
    Int.le_floor.mpr (by positivity)
  have hidx : (⌊r * fallback.length⌋).toNat < fallback.length := by omega
  rw [List.getD_eq_getElem _ _ hidx]
  exact fallback.getElem_mem hidx

/-- C7: `weightedPick(weights, exclude)` never returns the excluded degree;
with at least one non-excluded positive-weight key it returns such a key,
and with none it returns the uniformly indexed element of the remaining
degrees `[1..7] \ {exclude}` — in every case it returns a value. -/
theorem weightedPick_never_excluded (weights : Nat → ℚ) (e : Nat) (r : ℚ)
    (h0 : 0 ≤ r) (h1 : r < 1) :
    weightedPick weights (some e) r ≠ e ∧
    ((∃ d, d ∈ degreeKeys ∧ d ≠ e ∧ 0 < weights d) →
      weightedPick weights (some e) r ∈ degreeKeys ∧
      weightedPick weights (some e) r ≠ e ∧
      0 < weights (weightedPick weights (some e) r)) ∧
    ((∀ d, d ∈ degreeKeys → d ≠ e → weights d ≤ 0) →
      weightedPick weights (some e) r =
        (degreeKeys.filter (fun d => some d ≠ some e)).getD
          (⌊r * (degreeKeys.filter (fun d => some d ≠ some e)).length⌋).toNat 0 ∧
      weightedPick weights (some e) r ∈ degreeKeys.filter (fun d => some d ≠ some e)) := by
  by_cases hnil : weightedEntries weights (some e) = []
  · have hdeg := weightedEntries_eq_nil_iff.mp hnil
    have heq := @weightedPick_eq_fallback weights (some e) r hnil
    have hmem := fallback_getD_mem (e := e) h0 h1
    simp only at hmem
    have hmem2 : weightedPick weights (some e) r ∈
        degreeKeys.filter (fun d => some d ≠ some e) := by
      rw [heq]
      exact hmem
    have hne : weightedPick weights (some e) r ≠ e := by
      have hf := List.of_mem_filter hmem2
      intro hc
      rw [hc] at hf
      simp at hf
    refine ⟨hne, ?_, fun _ => ⟨heq, hmem2⟩⟩
    intro ⟨d, hd, hdne, hpos⟩
    exact absurd (hdeg d hd hdne) (not_le.mpr hpos)
  · have hmem := @weightedPick_mem_of_entries_ne_nil weights (some e) r hnil
    obtain ⟨p, hp, hfst⟩ := List.mem_map.mp hmem
    have hprop := mem_weightedEntries hp
    have hne : weightedPick weights (some e) r ≠ e := by
      rw [← hfst]
      intro hc
      exact hprop.2.1 (by rw [hc])
    refine ⟨hne, fun _ => ⟨hfst ▸ hprop.1, hne, hfst ▸ hprop.2.2⟩, ?_⟩
    intro hall
    exact absurd (weightedEntries_eq_nil_iff.mpr hall) hnil

/-- Witness for `weightedPick_never_excluded` at uniform weights,
exclusion 3 and roll 1/2. -/
theorem weightedPick_never_excluded_witness :
    (0 : ℚ) ≤ 1 / 2 ∧ (1 : ℚ) / 2 < 1 ∧
    (weightedPick (mkWeights 1 1 1 1 1 1 1) (some 3) (1 / 2) ≠ 3 ∧
    ((∃ d, d ∈ degreeKeys ∧ d ≠ 3 ∧ 0 < mkWeights 1 1 1 1 1 1 1 d) →
      weightedPick (mkWeights 1 1 1 1 1 1 1) (some 3) (1 / 2) ∈ degreeKeys ∧
      weightedPick (mkWeights 1 1 1 1 1 1 1) (some 3) (1 / 2) ≠ 3 ∧
      0 < mkWeights 1 1 1 1 1 1 1 (weightedPick (mkWeights 1 1 1 1 1 1 1) (some 3) (1 / 2))) ∧
    ((∀ d, d ∈ degreeKeys → d ≠ 3 → mkWeights 1 1 1 1 1 1 1 d ≤ 0) →
      weightedPick (mkWeights 1 1 1 1 1 1 1) (some 3) (1 / 2) =
        (degreeKeys.filter (fun d => some d ≠ some 3)).getD
          (⌊(1 / 2 : ℚ) * (degreeKeys.filter (fun d => some d ≠ some 3)).length⌋).toNat 0 ∧
      weightedPick (mkWeights 1 1 1 1 1 1 1) (some 3) (1 / 2) ∈
        degreeKeys.filter (fun d => some d ≠ some 3))) :=
  ⟨by norm_num, by norm_num,
    weightedPick_never_excluded (mkWeights 1 1 1 1 1 1 1) 3 (1 / 2)
      (by norm_num) (by norm_num)⟩

/-- C10: `shouldImmediatelyChange` is true exactly for a changed category
where one side is storm, fog, or snow; equal categories always give false. -/
theorem shouldImmediatelyChange_spec (oldCategory newCategory : String) :
    (shouldImmediatelyChange oldCategory newCategory = true ↔
      oldCategory ≠ newCategory ∧
        (oldCategory ∈ (["storm", "fog", "snow"] : List String) ∨
         newCategory ∈ (["storm", "fog", "snow"] : List String))) ∧
    shouldImmediatelyChange oldCategory oldCategory = false := by
  constructor
  · unfold shouldImmediatelyChange
    split_ifs with h1 h2 h3 h4 <;> simp_all <;> tauto
  · simp [shouldImmediatelyChange]

/-! ## Player theorems -/

/-- C1: `setProgression(p, true)` — or `setProgression(p, immediate)` with
nothing loaded — replaces the current progression, clears the queue, resets
the cursor to 0, and synchronously emits exactly one chord-change event
carrying `p`'s chord 0; `setProgression(p, false)` with a progression
already loaded emits nothing and stores `p` as the queued progression,
which the advance callback swaps in when the current cycle completes. -/
theorem setProgression_spec (s : PlayerState) (p : Progression) :
    (∀ immediate : Bool, immediate = true ∨ s.currentProgression = none →
      setProgression p immediate s =
        ({ currentProgression := some p, nextProgression := none, chordIndex := 0,
           loopInterval := some p.harmonicRhythm },
         [(p.chords.get? 0, 0, p.chords.length)])) ∧
    (∀ q : Progression, s.currentProgression = some q →
      setProgression p false s = ({ s with nextProgression := some p }, [])) ∧
    (∀ q : Progression, s.currentProgression = some q → s.nextProgression = some p →
      ∀ ce, q.chords.length ≤ s.chordIndex + 1 →
        (advance s ce).1.currentProgression = some p ∧
        (advance s ce).1.nextProgression = none ∧
        (advance s ce).1.chordIndex = 0 ∧
        (advance s ce).2 = [(p.chords.get? 0, 0, p.chords.length)]) := by
  refine ⟨?_, ?_, ?_⟩
  · intro immediate h
    rcases h with h | h
    · subst h
      simp [setProgression, startLoop, stopLoop]
    · simp [setProgression, startLoop, stopLoop, h]
  · intro q h
    simp [setProgression, h]
  · intro q h hnext ce hlen
    simp [advance, h, hnext, hlen]

/-- Witness for `setProgression_spec`: loading `progAB` immediately over a
loaded player emits exactly chord 0. -/
theorem setProgression_spec_witness :
    (true = true ∨ loadedState.currentProgression = none) ∧
    setProgression progAB true loadedState =
      ({ currentProgression := some progAB, nextProgression := none, chordIndex := 0,
         loopInterval := some progAB.harmonicRhythm },
       [(progAB.chords.get? 0, 0, progAB.chords.length)]) :=
  ⟨Or.inl rfl, (setProgression_spec loadedState progAB).1 true (Or.inl rfl)⟩

/-- C2: a cycle-end advance with no queued progression and an absent or
falsy cycle-end supplier keeps the current progression, wraps the cursor to
0, and re-emits the progression's chord-0 object; in particular a 2-chord
progression advances to index 1 and then wraps back to index 0, re-emitting
the original chord 0. -/
theorem cycle_wrap_spec :
    (∀ (s : PlayerState) (p : Progression) (ce : Option (Option Progression)),
      s.currentProgression = some p → s.nextProgression = none →
      (ce = none ∨ ce = some none) →
      p.chords.length ≤ s.chordIndex + 1 →
      (advance s ce).1.currentProgression = some p ∧
      (advance s ce).1.chordIndex = 0 ∧
      (advance s ce).2 = [(p.chords.get? 0, 0, p.chords.length)]) ∧
    (∀ (s : PlayerState) (p : Progression) (ce1 ce2 : Option (Option Progression)),
      s.currentProgression = some p → s.nextProgression = none →
      s.chordIndex = 0 → p.chords.length = 2 →
      (ce1 = none ∨ ce1 = some none) → (ce2 = none ∨ ce2 = some none) →
      (advance s ce1).1.chordIndex = 1 ∧
      (advance s ce1).2 = [(p.chords.get? 1, 1, 2)] ∧
      (advance (advance s ce1).1 ce2).1.currentProgression = some p ∧
      (advance (advance s ce1).1 ce2).1.chordIndex = 0 ∧
      (advance (advance s ce1).1 ce2).2 = [(p.chords.get? 0, 0, 2)]) := by
  have wrap : ∀ (s : PlayerState) (p : Progression) (ce : Option (Option Progression)),
      s.currentProgression = some p → s.nextProgression = none →
      (ce = none ∨ ce = some none) →
      p.chords.length ≤ s.chordIndex + 1 →
      (advance s ce).1.currentProgression = some p ∧
      (advance s ce).1.chordIndex = 0 ∧
      (advance s ce).2 = [(p.chords.get? 0, 0, p.chords.length)] := by
    intro s p ce h hnext hce hlen
    rcases hce with hce | hce <;> subst hce <;> simp [advance, h, hnext, hlen]
  refine ⟨wrap, ?_⟩
  intro s p ce1 ce2 h hnext hidx hlen hce1 hce2
  have hnotend : ¬(p.chords.length ≤ 1) := by omega
  have hstep1 : advance s ce1 =
      ({ currentProgression := some p, nextProgression := none,
         chordIndex := 1,
         loopInterval := some (if jsIsSecDom (p.chords.get? 1) then
           halveRhythm p.harmonicRhythm else p.harmonicRhythm) },
       [(p.chords.get? 1, 1, p.chords.length)]) := by
    simp [advance, h, hnext, hnotend, hidx]
  have hS1 : (advance s ce1).1 =
      { currentProgression := some p, nextProgression := none, chordIndex := 1,
        loopInterval := some (if jsIsSecDom (p.chords.get? 1) then
          halveRhythm p.harmonicRhythm else p.harmonicRhythm) } := by
    rw [hstep1]
  have hE1 : (advance s ce1).2 = [(p.chords.get? 1, 1, 2)] := by rw [hstep1, hlen]
  have hwrap := wrap (advance s ce1).1 p ce2 (by rw [hS1]) (by rw [hS1]) hce2
    (by rw [hS1]; show p.chords.length ≤ 1 + 1; omega)
  rw [hlen] at hwrap
  exact ⟨by rw [hS1], hE1, hwrap.1, hwrap.2.1, hwrap.2.2⟩

/-- Witness for `cycle_wrap_spec`: the loaded 2-chord player advances to
index 1 and then wraps to index 0 re-emitting chord 0. -/
theorem cycle_wrap_spec_witness :
    (loadedState.currentProgression = some progAB ∧ progAB.chords.length = 2) ∧
    (advance loadedState none).1.chordIndex = 1 ∧
    (advance loadedState none).2 = [(progAB.chords.get? 1, 1, 2)] ∧
    (advance (advance loadedState none).1 (some none)).1.currentProgression = some progAB ∧
    (advance (advance loadedState none).1 (some none)).1.chordIndex = 0 ∧
    (advance (advance loadedState none).1 (some none)).2 = [(progAB.chords.get? 0, 0, 2)] :=
  ⟨⟨rfl, rfl⟩,
    cycle_wrap_spec.2 loadedState progAB none (some none) rfl rfl rfl rfl
      (Or.inl rfl) (Or.inr rfl)⟩

/-- C3: `pause()` then `resume()` emits nothing, preserves the cursor, the
current progression and `currentChord`, and the next advance behaves exactly
as it would have without the pause — in particular it emits the chord after
the paused one when one remains. -/
theorem pause_resume_spec (s : PlayerState) (p : Progression)
    (h : s.currentProgression = some p) :
    (playerPause s).2 = [] ∧
    (playerResume (playerPause s).1).2 = [] ∧
    (playerResume (playerPause s).1).1.chordIndex = s.chordIndex ∧
    (playerResume (playerPause s).1).1.currentProgression = s.currentProgression ∧
    currentChord (playerResume (playerPause s).1).1 = currentChord s ∧
    (∀ ce, advance (playerResume (playerPause s).1).1 ce = advance s ce) ∧
    (∀ ce, s.chordIndex + 1 < p.chords.length →
      (advance (playerResume (playerPause s).1).1 ce).2 =
        [(p.chords.get? (s.chordIndex + 1), s.chordIndex + 1, p.chords.length)]) := by
  have hres : (playerResume (playerPause s).1).1 =
      { s with loopInterval := some p.harmonicRhythm } := by
    simp [playerPause, playerResume, playerStart, startLoop, stopLoop, h]
  have hadv : ∀ ce, advance (playerResume (playerPause s).1).1 ce = advance s ce := by
    intro ce
    rw [hres]
    simp [advance, h]
  refine ⟨rfl, ?_, ?_, ?_, ?_, hadv, ?_⟩
  · simp [playerPause, playerResume, playerStart, startLoop, stopLoop, h]
  · rw [hres]
  · rw [hres]
  · rw [hres]
    simp [currentChord]
  · intro ce hlt
    rw [hadv ce]
    have hnotend : ¬(p.chords.length ≤ s.chordIndex + 1) := by omega
    simp [advance, h, hnotend]

/-- Witness for `pause_resume_spec` on the loaded 2-chord player. -/
theorem pause_resume_spec_witness :
    loadedState.currentProgression = some progAB ∧
    (playerResume (playerPause loadedState).1).2 = [] ∧
    (playerResume (playerPause loadedState).1).1.chordIndex = loadedState.chordIndex ∧
    currentChord (playerResume (playerPause loadedState).1).1 = currentChord loadedState ∧
    (advance (playerResume (playerPause loadedState).1).1 none).2 =
      [(progAB.chords.get? 1, 1, progAB.chords.length)] :=
  ⟨rfl,
    (pause_resume_spec loadedState progAB rfl).2.1,
    (pause_resume_spec loadedState progAB rfl).2.2.1,
    (pause_resume_spec loadedState progAB rfl).2.2.2.2.1,
    (pause_resume_spec loadedState progAB rfl).2.2.2.2.2.2 none (by norm_num [progAB, loadedState])⟩

/-- C6 counterexample: loading `progSD`, whose chord 0 is a secondary
dominant, via `setProgression(…, true)` emits that secondary dominant but
schedules the next advance at the full harmonic rhythm "4m", not the halved
"2m" — so the claim is false for the synchronous emission performed by
`setProgression`. -/
theorem initial_secdom_full_interval :
    (setProgression progSD true idleState).2 = [(some chordV7ofF, 0, 2)] ∧
    chordV7ofF.isSecondaryDominant = true ∧
    (setProgression progSD true idleState).1.loopInterval = some "4m" ∧
    progSD.harmonicRhythm = "4m" ∧
    halveRhythm "4m" = "2m" ∧
    (setProgression progSD true idleState).1.loopInterval ≠ some (halveRhythm "4m") := by
  refine ⟨rfl, rfl, rfl, rfl, by with_unfolding_all rfl, ?_⟩
  have h4 : halveRhythm "4m" = "2m" := by with_unfolding_all rfl
  rw [h4]
  intro hc
  have : "4m" = "2m" := Option.some.inj (by exact hc)
  simp at this

/-- C6 amended: for chords emitted by the periodic advance callback, the
interval scheduled until the next advance is the current progression's
harmonic rhythm halved (rounded, minimum one measure) when the emitted
chord is a secondary dominant, and the full harmonic rhythm otherwise;
'2m' halves to '1m' and '3m' to '2m', and generally `Nm` becomes
`max 1 (round (N / 2))` followed by `m`.  (The initial chord emitted
synchronously by `setProgression` is always scheduled at the full
harmonic rhythm, even when it is a secondary dominant.) -/
theorem advance_interval_spec :
    (∀ (s : PlayerState) (p : Progression) (ce : Option (Option Progression)),
      s.currentProgression = some p →
      ∃ oc i n q,
        (advance s ce).2 = [(oc, i, n)] ∧
        (advance s ce).1.currentProgression = some q ∧
        (advance s ce).1.loopInterval =
          some (if jsIsSecDom oc then halveRhythm q.harmonicRhythm
                else q.harmonicRhythm)) ∧
    halveRhythm "2m" = "1m" ∧ halveRhythm "3m" = "2m" ∧
    (∀ n : Nat, n < 20 → halveMeasures n = max 1 (((n : ℤ) + 1) / 2)) := by
  refine ⟨?_, by with_unfolding_all rfl, by with_unfolding_all rfl,
    by with_unfolding_all decide⟩
  intro s p ce h
  simp only [advance, h]
  by_cases hc : p.chords.length ≤ s.chordIndex + 1
  · rw [if_pos hc]
    cases hnext : s.nextProgression with
    | some np => exact ⟨_, _, _, _, rfl, rfl, rfl⟩
    | none =>
      cases ce with
      | none => exact ⟨_, _, _, _, rfl, rfl, rfl⟩
      | some o =>
        cases o with
        | none => exact ⟨_, _, _, _, rfl, rfl, rfl⟩
        | some fresh => exact ⟨_, _, _, _, rfl, rfl, rfl⟩
  · rw [if_neg hc]
    exact ⟨_, _, _, _, rfl, rfl, rfl⟩

/-- Witness for `advance_interval_spec` on the loaded player. -/
theorem advance_interval_spec_witness :
    loadedState.currentProgression = some progAB ∧
    (∃ oc i n q,
      (advance loadedState none).2 = [(oc, i, n)] ∧
      (advance loadedState none).1.currentProgression = some q ∧
      (advance loadedState none).1.loopInterval =
        some (if jsIsSecDom oc then halveRhythm q.harmonicRhythm
              else q.harmonicRhythm)) :=
  ⟨rfl, advance_interval_spec.1 loadedState progAB none rfl⟩

/-! ## Markov walk -/

theorem weightedPick_ne_exclude (weights : Nat → ℚ) (e : Nat) (r : ℚ)
    (h0 : 0 ≤ r) (h1 : r < 1) :
    weightedPick weights (some e) r ≠ e := by
  by_cases hnil : weightedEntries weights (some e) = []
  · have heq := @weightedPick_eq_fallback weights (some e) r hnil
    have hmem := fallback_getD_mem (e := e) h0 h1
    simp only at hmem
    have hmem2 : weightedPick weights (some e) r ∈
        degreeKeys.filter (fun d => some d ≠ some e) := by
      rw [heq]; exact hmem
    have hf := List.of_mem_filter hmem2
    intro hc
    rw [hc] at hf
    simp at hf
  · have hmem := @weightedPick_mem_of_entries_ne_nil weights (some e) r hnil
    obtain ⟨p, hp, hfst⟩ := List.mem_map.mp hmem
    have hprop := mem_weightedEntries hp
    rw [← hfst]
    intro hc
    exact hprop.2.1 (by rw [hc])

theorem markovWalkAux_chain (trans : Nat → Option (Nat → ℚ)) (rs : Nat → ℚ)
    (hr : ∀ i, 0 ≤ rs i ∧ rs i < 1) :
    ∀ (n cur k : Nat),
      List.Chain' (fun a b => a ≠ b) (cur :: markovWalkAux trans rs cur k n) := by
  intro n
  induction n with
  | zero =>
    intro cur k
    simp [markovWalkAux]
  | succ n ih =>
    intro cur k
    simp only [markovWalkAux]
    refine List.chain'_cons.mpr ⟨?_, ih _ (k + 1)⟩
    exact Ne.symm (weightedPick_ne_exclude _ cur (rs k) (hr k).1 (hr k).2)

/-- C8: no two consecutive degrees of the base Markov walk (the degree
sequence `generateProgression` builds before chord construction and
secondary-dominant injection) are equal, for any starting weights,
transition table, length and random stream drawn from `[0, 1)`. -/
theorem markov_walk_no_consecutive_repeats (startWeights : Nat → ℚ)
    (trans : Nat → Option (Nat → ℚ)) (length : Nat) (rs : Nat → ℚ)
    (hr : ∀ i, 0 ≤ rs i ∧ rs i < 1) :
    List.Chain' (fun a b => a ≠ b) (markovDegrees startWeights trans length rs) := by
  simp only [markovDegrees]
  exact markovWalkAux_chain trans rs hr (length - 1) _ 2

/-- Witness for `markov_walk_no_consecutive_repeats` with the calm tables
and the all-zero random stream. -/
theorem markov_walk_no_consecutive_repeats_witness :
    List.Chain' (fun a b => a ≠ b)
      (markovDegrees (mkWeights 10 0 1 2 1 1 0) calmTransitions 4 zeroStream) :=
  markov_walk_no_consecutive_repeats (mkWeights 10 0 1 2 1 1 0) calmTransitions 4
    zeroStream (fun i => ⟨by norm_num [zeroStream], by norm_num [zeroStream]⟩)

/-! ## Secondary-dominant injection invariants -/

theorem selectInversion_fields (c : Chord) (pb : Option String) :
    (selectInversion c pb).isSecondaryDominant = c.isSecondaryDominant ∧
    (selectInversion c pb).degree = c.degree ∧
    (selectInversion c pb).scaleTones = c.scaleTones := by
  cases pb with
  | none => exact ⟨rfl, rfl, rfl⟩
  | some pb =>
    simp only [selectInversion]
    split_ifs <;> exact ⟨rfl, rfl, rfl⟩

theorem inversionGo_fields (prev : Option String) (l : List Chord) (i : Nat) :
    ((inversionGo prev l).get? i).map
        (fun c => (c.isSecondaryDominant, c.degree, c.scaleTones)) =
      (l.get? i).map (fun c => (c.isSecondaryDominant, c.degree, c.scaleTones)) := by
  induction l generalizing prev i with
  | nil => simp [inversionGo]
  | cons c rest ih =>
    cases i with
    | zero =>
      have h := selectInversion_fields c prev
      simp [inversionGo, List.get?, h.1, h.2.1, h.2.2]
    | succ n =>
      simp only [inversionGo, List.get?]
      exact ih _ n

theorem injectSecondaryDominants_spec (prob : ℚ) (S : List String) (rs : Nat → ℚ) :
    ∀ (cs : List Chord) (k : Nat),
      (∀ c ∈ cs, c.isSecondaryDominant = false ∧ c.scaleTones = S) →
      ∀ i c, (injectSecondaryDominants prob S rs cs k).get? i = some c →
        c.isSecondaryDominant = true →
        ∃ c', (injectSecondaryDominants prob S rs cs k).get? (i + 1) = some c' ∧
          c'.isSecondaryDominant = false ∧ secDomTargetsHas c'.degree = true ∧
          c.scaleTones = S ∧ c'.scaleTones = S := by
  intro cs
  induction cs with
  | nil =>
    intro k h i c hget hsd
    simp [injectSecondaryDominants] at hget
  | cons c0 rest ih =>
    intro k h i c hget hsd
    have h0 := h c0 (by simp)
    have hrest : ∀ c ∈ rest, c.isSecondaryDominant = false ∧ c.scaleTones = S :=
      fun c hc => h c (by simp [hc])
    by_cases ht : secDomTargetsHas c0.degree = true
    · by_cases hrand : rs k < prob
      · have hform : injectSecondaryDominants prob S rs (c0 :: rest) k =
            buildSecondaryDominant c0 S :: c0 ::
              injectSecondaryDominants prob S rs rest (k + 1) := by
          simp [injectSecondaryDominants, ht, hrand]
        rw [hform] at hget ⊢
        cases i with
        | zero =>
          have hc : c = buildSecondaryDominant c0 S :=
            (Option.some.inj (by simpa [List.get?] using hget)).symm
          subst hc
          exact ⟨c0, by simp [List.get?], h0.1, ht, rfl, h0.2⟩
        | succ n =>
          cases n with
          | zero =>
            have hc : c = c0 :=
              (Option.some.inj (by simpa [List.get?] using hget)).symm
            rw [hc, h0.1] at hsd
            exact absurd hsd (by simp)
          | succ m =>
            obtain ⟨c', hc', hrest'⟩ :=
              ih (k + 1) hrest m c (by simpa [List.get?] using hget) hsd
            exact ⟨c', by simpa [List.get?] using hc', hrest'⟩
      · have hform : injectSecondaryDominants prob S rs (c0 :: rest) k =
            c0 :: injectSecondaryDominants prob S rs rest (k + 1) := by
          simp [injectSecondaryDominants, ht, hrand]
        rw [hform] at hget ⊢
        cases i with
        | zero =>
          have hc : c = c0 :=
            (Option.some.inj (by simpa [List.get?] using hget)).symm
          rw [hc, h0.1] at hsd
          exact absurd hsd (by simp)
        | succ n =>
          obtain ⟨c', hc', hrest'⟩ :=
            ih (k + 1) hrest n c (by simpa [List.get?] using hget) hsd
          exact ⟨c', by simpa [List.get?] using hc', hrest'⟩
    · have hform : injectSecondaryDominants prob S rs (c0 :: rest) k =
          c0 :: injectSecondaryDominants prob S rs rest k := by
        simp [injectSecondaryDominants, ht]
      rw [hform] at hget ⊢
      cases i with
      | zero =>
        have hc : c = c0 :=
          (Option.some.inj (by simpa [List.get?] using hget)).symm
        rw [hc, h0.1] at hsd
        exact absurd hsd (by simp)
      | succ n =>
        obtain ⟨c', hc', hrest'⟩ :=
          ih k hrest n c (by simpa [List.get?] using hget) hsd
        exact ⟨c', by simpa [List.get?] using hc', hrest'⟩

theorem inversionPass_transfer (L : List Chord) (S : List String)
    (hL : ∀ i c, L.get? i = some c → c.isSecondaryDominant = true →
      ∃ c', L.get? (i + 1) = some c' ∧ c'.isSecondaryDominant = false ∧
        secDomTargetsHas c'.degree = true ∧ c.scaleTones = S ∧ c'.scaleTones = S) :
    ∀ i c, (inversionPass L).get? i = some c → c.isSecondaryDominant = true →
      ∃ c', (inversionPass L).get? (i + 1) = some c' ∧ c'.isSecondaryDominant = false ∧
        secDomTargetsHas c'.degree = true ∧ c.scaleTones = S ∧ c'.scaleTones = S := by
  intro i c hget hsd
  simp only [inversionPass] at hget ⊢
  have h1 := inversionGo_fields none L i
  rw [hget] at h1
  cases hLi : L.get? i with
  | none =>
    rw [hLi] at h1
    exact absurd h1 (by simp)
  | some c0 =>
    rw [hLi] at h1
    obtain ⟨hsd0, hdeg0, hst0⟩ :
        c.isSecondaryDominant = c0.isSecondaryDominant ∧ c.degree = c0.degree ∧
          c.scaleTones = c0.scaleTones := by
      simpa [Prod.ext_iff] using h1
    obtain ⟨c1, hc1, hc1sd, hc1t, hc0S, hc1S⟩ :=
      hL i c0 hLi (by rw [← hsd0]; exact hsd)
    have h2 := inversionGo_fields none L (i + 1)
    rw [hc1] at h2
    cases hPi : (inversionGo none L).get? (i + 1) with
    | none =>
      rw [hPi] at h2
      exact absurd h2 (by simp)
    | some c' =>
      rw [hPi] at h2
      obtain ⟨h'sd, h'deg, h'st⟩ :
          c'.isSecondaryDominant = c1.isSecondaryDominant ∧ c'.degree = c1.degree ∧
            c'.scaleTones = c1.scaleTones := by
        simpa [Prod.ext_iff] using h2
      refine ⟨c', rfl, h'sd.trans hc1sd, ?_, hst0.trans hc0S, h'st.trans hc1S⟩
      rw [h'deg]
      exact hc1t

theorem inversionPass_no_secdom (L : List Chord)
    (hall : ∀ c ∈ L, c.isSecondaryDominant = false) :
    ∀ i c, (inversionPass L).get? i = some c → c.isSecondaryDominant = true → False := by
  intro i c hget hsd
  simp only [inversionPass] at hget
  have h1 := inversionGo_fields none L i
  rw [hget] at h1
  cases hLi : L.get? i with
  | none =>
    rw [hLi] at h1
    exact absurd h1 (by simp)
  | some c0 =>
    rw [hLi] at h1
    obtain ⟨hsd0, _, _⟩ :
        c.isSecondaryDominant = c0.isSecondaryDominant ∧ c.degree = c0.degree ∧
          c.scaleTones = c0.scaleTones := by
      simpa [Prod.ext_iff] using h1
    have hmem : c0 ∈ L := List.get?_mem hLi
    rw [hsd0, hall c0 hmem] at hsd
    exact absurd hsd (by simp)

/-- The full injection-plus-inversion tail of `generateProgression`, for an
arbitrary base chord list whose members are diatonic (`isSecondaryDominant`
false) and share the scale `S`. -/
theorem pipeline_package (S : List String) (rs : Nat → ℚ) (prob : ℚ)
    (base : List Chord) (k : Nat)
    (hbase : ∀ c ∈ base, c.isSecondaryDominant = false ∧ c.scaleTones = S) :
    ∀ i c,
      (inversionPass (if 0 < prob then injectSecondaryDominants prob S rs base k
        else base)).get? i = some c →
      c.isSecondaryDominant = true →
      ∃ c',
        (inversionPass (if 0 < prob then injectSecondaryDominants prob S rs base k
          else base)).get? (i + 1) = some c' ∧
        c'.isSecondaryDominant = false ∧ secDomTargetsHas c'.degree = true ∧
        c.scaleTones = S ∧ c'.scaleTones = S := by
  by_cases hp : 0 < prob
  · simp only [if_pos hp]
    exact inversionPass_transfer _ S (injectSecondaryDominants_spec prob S rs base k hbase)
  · simp only [if_neg hp]
    intro i c hget hsd
    exact absurd hsd (by
      intro hc
      exact inversionPass_no_secdom base (fun c hc => (hbase c hc).1) i c hget hc)

/-- secDomTargetsHas unpacked. -/
theorem secDomTargetsHas_iff (od : Option Nat) :
    secDomTargetsHas od = true ↔
      ∃ d, od = some d ∧ (d = 2 ∨ d = 4 ∨ d = 5 ∨ d = 6) := by
  cases od with
  | none => simp [secDomTargetsHas]
  | some d => simp [secDomTargetsHas]

/-- The chords of `generateProgression`, every secondary dominant among
them, its follower, and their scale tones, in one package. -/
theorem generateProgression_secdom_package (root mode weatherCategory : String)
    (pressureNorm : ℚ) (rs : Nat → ℚ) :
    ∀ i c,
      (generateProgression root mode weatherCategory pressureNorm rs).chords.get? i
        = some c →
      c.isSecondaryDominant = true →
      ∃ c',
        (generateProgression root mode weatherCategory pressureNorm rs).chords.get?
          (i + 1) = some c' ∧
        c'.isSecondaryDominant = false ∧ secDomTargetsHas c'.degree = true ∧
        c.scaleTones = getScaleNotes root mode 3 5 ∧
        c'.scaleTones = getScaleNotes root mode 3 5 := by
  let mood := (CATEGORY_TO_MOOD weatherCategory).getD "calm"
  let qualities := (DIATONIC_CHORDS mode).getD
    ["maj7", "min7", "min7", "maj7", "dom7", "min7", "min7b5"]
  let lengths := (PROGRESSION_LENGTHS mood).getD (4, 6)
  let length := lengths.1 + (⌊rs 0 * ((lengths.2 : ℚ) - lengths.1 + 1)⌋).toNat
  let transitions := (TRANSITION_WEIGHTS mood).getD calmTransitions
  let startWeights := (STARTING_WEIGHTS mood).getD (mkWeights 10 0 1 2 1 1 0)
  let degrees := markovDegrees startWeights transitions length rs
  let base := degrees.map (fun degree => buildChord root mode degree qualities)
  let prob := (SEC_DOM_PROBABILITY mood).getD 0
  let S := ((base.head?).map (fun c => c.scaleTones)).getD (getScaleNotes root mode 3 5)
  have hconv : (generateProgression root mode weatherCategory pressureNorm rs).chords =
      inversionPass (if 0 < prob then injectSecondaryDominants prob S rs base (length + 1)
        else base) := rfl
  have hS : S = getScaleNotes root mode 3 5 := rfl
  have hbase : ∀ c ∈ base, c.isSecondaryDominant = false ∧ c.scaleTones = S := by
    intro c hc
    obtain ⟨d, _, hcd⟩ := List.mem_map.mp hc
    rw [← hcd]
    exact ⟨rfl, hS.symm⟩
  intro i c hget hsd
  rw [hconv] at hget
  obtain ⟨c', hc', h1, h2, h3, h4⟩ :=
    pipeline_package S rs prob base (length + 1) hbase i c hget hsd
  rw [← hconv] at hc'
  rw [← hS]
  exact ⟨c', hc', h1, h2, h3, h4⟩

/-- C4: in every progression returned by `generateProgression`, each chord
flagged `isSecondaryDominant` is immediately followed by a diatonic chord
whose degree lies in {2, 4, 5, 6}, and no two consecutive chords are both
secondary dominants. -/
theorem generateProgression_secdom_placement (root mode weatherCategory : String)
    (pressureNorm : ℚ) (rs : Nat → ℚ) :
    (∀ i c,
      (generateProgression root mode weatherCategory pressureNorm rs).chords.get? i
        = some c →
      c.isSecondaryDominant = true →
      ∃ c',
        (generateProgression root mode weatherCategory pressureNorm rs).chords.get?
          (i + 1) = some c' ∧
        c'.isSecondaryDominant = false ∧
        ∃ d, c'.degree = some d ∧ (d = 2 ∨ d = 4 ∨ d = 5 ∨ d = 6)) ∧
    (∀ i c1 c2,
      (generateProgression root mode weatherCategory pressureNorm rs).chords.get? i
        = some c1 →
      (generateProgression root mode weatherCategory pressureNorm rs).chords.get?
        (i + 1) = some c2 →
      ¬(c1.isSecondaryDominant = true ∧ c2.isSecondaryDominant = true)) := by
  have key := generateProgression_secdom_package root mode weatherCategory pressureNorm rs
  constructor
  · intro i c hget hsd
    obtain ⟨c', hc', h1, h2, _, _⟩ := key i c hget hsd
    exact ⟨c', hc', h1, (secDomTargetsHas_iff c'.degree).mp h2⟩
  · intro i c1 c2 hget1 hget2 ⟨hsd1, hsd2⟩
    obtain ⟨c', hc', h1, _, _, _⟩ := key i c1 hget1 hsd1
    rw [hget2] at hc'
    have he : c2 = c' := Option.some.inj hc'
    rw [he, h1] at hsd2
    exact absurd hsd2 (by simp)

/-- Witness for `generateProgression_secdom_placement`: chord 1 of
`stormSample` is a secondary dominant and chord 2 is the diatonic ii chord
it resolves to. -/
theorem generateProgression_secdom_placement_witness :
    ∃ c, stormSample.chords.get? 1 = some c ∧ c.isSecondaryDominant = true ∧
      ∃ c', stormSample.chords.get? 2 = some c' ∧ c'.isSecondaryDominant = false ∧
        ∃ d, c'.degree = some d ∧ (d = 2 ∨ d = 4 ∨ d = 5 ∨ d = 6) := by
  rcases hc : stormSample.chords.get? 1 with _ | c
  · have hs : (stormSample.chords.get? 1).isSome = true := by with_unfolding_all rfl
    rw [hc] at hs
    exact absurd hs (by simp)
  · have hsd : c.isSecondaryDominant = true := by
      have h2 : (stormSample.chords.get? 1).map (fun x => x.isSecondaryDominant)
          = some true := by with_unfolding_all rfl
      rw [hc] at h2
      simpa using h2
    exact ⟨c, rfl, hsd,
      (generateProgression_secdom_placement "C" "ionian" "storm" 0 zeroStream).1 1 c
        hc hsd⟩

/-- C5: every secondary dominant in a generated progression carries the
`scaleTones` of the chord it resolves to — the prevailing scale of the
progression's root and mode (`getScaleNotes root mode 3 5`), not a scale
built on the dominant's own root. -/
theorem generateProgression_secdom_scaleTones (root mode weatherCategory : String)
    (pressureNorm : ℚ) (rs : Nat → ℚ) :
    ∀ i c,
      (generateProgression root mode weatherCategory pressureNorm rs).chords.get? i
        = some c →
      c.isSecondaryDominant = true →
      ∃ c',
        (generateProgression root mode weatherCategory pressureNorm rs).chords.get?
          (i + 1) = some c' ∧
        c.scaleTones = c'.scaleTones ∧
        c.scaleTones = getScaleNotes root mode 3 5 := by
  intro i c hget hsd
  obtain ⟨c', hc', _, _, h3, h4⟩ :=
    generateProgression_secdom_package root mode weatherCategory pressureNorm rs
      i c hget hsd
  exact ⟨c', hc', h3.trans h4.symm, h3⟩

/-- Witness for `generateProgression_secdom_scaleTones` at chord 1 of
`stormSample`. -/
theorem generateProgression_secdom_scaleTones_witness :
    ∃ c, stormSample.chords.get? 1 = some c ∧ c.isSecondaryDominant = true ∧
      ∃ c', stormSample.chords.get? 2 = some c' ∧
        c.scaleTones = c'.scaleTones ∧
        c.scaleTones = getScaleNotes "C" "ionian" 3 5 := by
  rcases hc : stormSample.chords.get? 1 with _ | c
  · have hs : (stormSample.chords.get? 1).isSome = true := by with_unfolding_all rfl
    rw [hc] at hs
    exact absurd hs (by simp)
  · have hsd : c.isSecondaryDominant = true := by
      have h2 : (stormSample.chords.get? 1).map (fun x => x.isSecondaryDominant)
          = some true := by with_unfolding_all rfl
      rw [hc] at h2
      simpa using h2
    exact ⟨c, rfl, hsd,
      generateProgression_secdom_scaleTones "C" "ionian" "storm" 0 zeroStream 1 c
        hc hsd⟩

/-! ## voiceLead -/

theorem clampLowAux_ge (fuel : Nat) :
    ∀ m : ℤ, (48 - m).toNat ≤ fuel → 48 ≤ clampLowAux fuel m := by
  induction fuel with
  | zero =>
    intro m hm
    simp only [clampLowAux]
    omega
  | succ n ih =>
    intro m hm
    simp only [clampLowAux]
    split_ifs with h
    · exact ih (m + 12) (by omega)
    · omega

theorem clampLow_ge (m : ℤ) : 48 ≤ clampLow m :=
  clampLowAux_ge _ m le_rfl

theorem clampLow_eq_self (m : ℤ) (h : 48 ≤ m) : clampLow m = m := by
  simp only [clampLow]
  have h0 : (48 - m).toNat = 0 := by omega
  rw [h0]
  rfl

theorem clampHighAux_le (fuel : Nat) :
    ∀ m : ℤ, (m - 84).toNat ≤ fuel → clampHighAux fuel m ≤ 84 := by
  induction fuel with
  | zero =>
    intro m hm
    simp only [clampHighAux]
    omega
  | succ n ih =>
    intro m hm
    simp only [clampHighAux]
    split_ifs with h
    · exact ih (m - 12) (by omega)
    · omega

theorem clampHighAux_ge (fuel : Nat) :
    ∀ m : ℤ, 48 ≤ m → 48 ≤ clampHighAux fuel m := by
  induction fuel with
  | zero =>
    intro m hm
    simpa only [clampHighAux] using hm
  | succ n ih =>
    intro m hm
    simp only [clampHighAux]
    split_ifs with h
    · exact ih (m - 12) (by omega)
    · exact hm

theorem clampHigh_eq_self (m : ℤ) (h : m ≤ 84) : clampHigh m = m := by
  simp only [clampHigh]
  have h0 : (m - 84).toNat = 0 := by omega
  rw [h0]
  rfl

theorem clampToRegister_bounds (m : ℤ) :
    48 ≤ clampToRegister m ∧ clampToRegister m ≤ 84 := by
  constructor
  · exact clampHighAux_ge _ _ (clampLow_ge m)
  · exact clampHighAux_le _ _ le_rfl

theorem clampToRegister_eq_self (m : ℤ) (h1 : 48 ≤ m) (h2 : m ≤ 84) :
    clampToRegister m = m := by
  simp only [clampToRegister]
  rw [clampLow_eq_self m h1, clampHigh_eq_self m h2]

theorem nearestOctave_mem (current target : ℤ) :
    nearestOctave current target = target - 12 ∨
      nearestOctave current target = target ∨
      nearestOctave current target = target + 12 := by
  simp only [nearestOctave]
  split_ifs <;> omega

theorem nearestOctave_min (current target : ℤ) :
    jsAbs (nearestOctave current target - current) ≤ jsAbs (target - 12 - current) ∧
    jsAbs (nearestOctave current target - current) ≤ jsAbs (target - current) ∧
    jsAbs (nearestOctave current target - current) ≤ jsAbs (target + 12 - current) := by
  simp only [nearestOctave]
  split_ifs <;> exact ⟨by omega, by omega, by omega⟩

theorem voiceLead_get (cur tgt : List String)
    (hc : cur.isEmpty = false) (ht : tgt.isEmpty = false) (i : Nat) :
    (voiceLead cur tgt).get? i =
      ((tgt.map noteToMidi).get? i).map (fun t =>
        midiToNote (clampToRegister
          (nearestOctave (jsCurrentAt (cur.map noteToMidi) i) t))) := by
  simp only [voiceLead, hc, ht, Bool.false_eq_true, if_false]
  rw [List.get?_map, List.get?_map, List.get?_map, List.get?_enum]
  cases (tgt.map noteToMidi).get? i with
  | none => rfl
  | some t => rfl

/-- C9 counterexample: `voiceLead(["F#1"], ["C3"])` returns `["C3"]`
(MIDI 48), yet the octave candidate `target − 12 = 36` is strictly closer
to the currently sounding pitch F#1 (MIDI 30) — the returned pitch is the
clamped value, not the distance-minimizing candidate. -/
theorem voiceLead_minimality_counterexample :
    voiceLead ["F#1"] ["C3"] = ["C3"] ∧
    noteToMidi "C3" = 48 ∧ noteToMidi "F#1" = 30 ∧
    noteToMidi "C3" - 12 = 36 ∧
    jsAbs (36 - noteToMidi "F#1") < jsAbs (noteToMidi "C3" - noteToMidi "F#1") := by
  refine ⟨by with_unfolding_all rfl, by with_unfolding_all rfl,
    by with_unfolding_all rfl, by with_unfolding_all rfl,
    by with_unfolding_all decide⟩

/-- C9 amended: every pitch `voiceLead` returns lies in the register C3–C6
(MIDI 48–84 inclusive); and whenever the distance-minimizing octave
candidate itself lies within that register (so the clamp is the identity),
the returned pitch is that candidate — one of {target−12, target,
target+12} — and minimizes the distance to the corresponding
currently-sounding pitch. -/
theorem voiceLead_register_spec (cur tgt : List String) (hc : cur ≠ []) (ht : tgt ≠ [])
    (i : Nat) (s ts : String)
    (hs : (voiceLead cur tgt).get? i = some s) (hts : tgt.get? i = some ts) :
    ∃ m : ℤ, s = midiToNote m ∧ 48 ≤ m ∧ m ≤ 84 ∧
      (48 ≤ nearestOctave (jsCurrentAt (cur.map noteToMidi) i) (noteToMidi ts) →
        nearestOctave (jsCurrentAt (cur.map noteToMidi) i) (noteToMidi ts) ≤ 84 →
        (m = noteToMidi ts - 12 ∨ m = noteToMidi ts ∨ m = noteToMidi ts + 12) ∧
        jsAbs (m - jsCurrentAt (cur.map noteToMidi) i) ≤
          jsAbs (noteToMidi ts - 12 - jsCurrentAt (cur.map noteToMidi) i) ∧
        jsAbs (m - jsCurrentAt (cur.map noteToMidi) i) ≤
          jsAbs (noteToMidi ts - jsCurrentAt (cur.map noteToMidi) i) ∧
        jsAbs (m - jsCurrentAt (cur.map noteToMidi) i) ≤
          jsAbs (noteToMidi ts + 12 - jsCurrentAt (cur.map noteToMidi) i)) := by
  have hc' : cur.isEmpty = false := by cases cur <;> simp_all
  have ht' : tgt.isEmpty = false := by cases tgt <;> simp_all
  have hchar := voiceLead_get cur tgt hc' ht' i
  rw [hs, List.get?_map, hts] at hchar
  have hsm : s = midiToNote (clampToRegister
      (nearestOctave (jsCurrentAt (cur.map noteToMidi) i) (noteToMidi ts))) := by
    simpa using hchar
  refine ⟨clampToRegister (nearestOctave (jsCurrentAt (cur.map noteToMidi) i)
      (noteToMidi ts)), hsm, (clampToRegister_bounds _).1, (clampToRegister_bounds _).2, ?_⟩
  intro hge hle
  rw [clampToRegister_eq_self _ hge hle]
  exact ⟨nearestOctave_mem _ _, (nearestOctave_min _ _).1,
    (nearestOctave_min _ _).2.1, (nearestOctave_min _ _).2.2⟩

/-- Witness for `voiceLead_register_spec` at `voiceLead(["C4"], ["E4"])`. -/
theorem voiceLead_register_spec_witness :
    (voiceLead ["C4"] ["E4"]).get? 0 = some "E4" ∧
    (["E4"] : List String).get? 0 = some "E4" ∧
    (∃ m : ℤ, "E4" = midiToNote m ∧ 48 ≤ m ∧ m ≤ 84 ∧
      (48 ≤ nearestOctave (jsCurrentAt ((["C4"] : List String).map noteToMidi) 0)
          (noteToMidi "E4") →
        nearestOctave (jsCurrentAt ((["C4"] : List String).map noteToMidi) 0)
          (noteToMidi "E4") ≤ 84 →
        (m = noteToMidi "E4" - 12 ∨ m = noteToMidi "E4" ∨ m = noteToMidi "E4" + 12) ∧
        jsAbs (m - jsCurrentAt ((["C4"] : List String).map noteToMidi) 0) ≤
          jsAbs (noteToMidi "E4" - 12 -
            jsCurrentAt ((["C4"] : List String).map noteToMidi) 0) ∧
        jsAbs (m - jsCurrentAt ((["C4"] : List String).map noteToMidi) 0) ≤
          jsAbs (noteToMidi "E4" -
            jsCurrentAt ((["C4"] : List String).map noteToMidi) 0) ∧
        jsAbs (m - jsCurrentAt ((["C4"] : List String).map noteToMidi) 0) ≤
          jsAbs (noteToMidi "E4" + 12 -
            jsCurrentAt ((["C4"] : List String).map noteToMidi) 0))) :=
  ⟨by with_unfolding_all rfl, rfl,
    voiceLead_register_spec ["C4"] ["E4"] (by simp) (by simp) 0 "E4" "E4"
      (by with_unfolding_all rfl) rfl⟩

end SoundOfRightNow
